import Mathlib

/-!
Shallow embedding of the pinochle score keeper's core model:
the `GameHand` model (src/models/GameHand.js) and the `Game` session model
(src/models/Game.js, shipped alongside the StorageService tests).

JavaScript idioms are made explicit:
  * a nullable field becomes an `Option`;
  * a JS object used as a player-id keyed map becomes an insertion-ordered
    association list `List (String × Int)` (`setKey` overwrites in place,
    `lookupD` is `map[k] || 0`);
  * `Array.prototype.find` followed by in-place mutation becomes
    `addToScore`, which updates the first matching entry and returns `none`
    when no entry matches (the JS code would throw there);
  * JS truthiness tests (`!this.bidderId`, `!this.winningBid`) are embedded
    by `jsTruthyStr` / `jsTruthyNum`;
  * reading the wall clock (`Date.now()`, `new Date().toISOString()`)
    becomes an explicit argument of the constructing operation;
  * the float division `score / 10` in `validate` is embedded over `ℚ`,
    which is exact on the values involved.
-/

namespace Pinochle

/-- Player identity as the scoring engine sees it (src/models/Player.js:
only `id` and `name` are read by the Game model). -/
structure Player where
  id : String
  name : String
deriving DecidableEq, Repr

/-- One cached score row of `Game.scores`: `{ playerId, name, score }`. -/
structure ScoreEntry where
  playerId : String
  name : String
  score : Int
deriving DecidableEq, Repr

/-- `m[k] || 0`: defaulting lookup in a JS object used as a map. -/
def lookupD (m : List (String × Int)) (k : String) : Int :=
  (m.lookup k).getD 0

/-- `obj[k] = v` on a JS object: overwrite the first matching key in place,
append when absent. -/
def setKey : List (String × Int) → String → Int → List (String × Int)
  | [], k, v => [(k, v)]
  | (k0, v0) :: rest, k, v =>
    if k0 = k then (k0, v) :: rest else (k0, v0) :: setKey rest k v

/-- JS truthiness of a nullable string (`null` and `""` are falsy). -/
def jsTruthyStr : Option String → Bool
  | none => false
  | some s => s != ""

/-- JS truthiness of a nullable number (`null` and `0` are falsy). -/
def jsTruthyNum : Option Int → Bool
  | none => false
  | some n => n != 0

/-- src/models/GameHand.js: one dealt-and-played round. -/
structure GameHand where
  handNumber : Int
  winningBid : Option Int
  bidderId : Option String
  bidderName : Option String
  playerMeld : List (String × Int)
  playerScores : List (String × Int)
  timestamp : String
  dealerId : String
  dealerName : String
  thrownIn : Bool
deriving DecidableEq, Repr

/-- The GameHand constructor; `timestamp` stands for
`new Date().toISOString()` read at construction time. -/
def GameHand.new (handNumber : Int) (dealerId dealerName timestamp : String) :
    GameHand :=
  { handNumber := handNumber
    winningBid := none
    bidderId := none
    bidderName := none
    playerMeld := []
    playerScores := []
    timestamp := timestamp
    dealerId := dealerId
    dealerName := dealerName
    thrownIn := false }

/-- `setWinningBid(bid, bidderId, bidderName)`. -/
def GameHand.setWinningBid (h : GameHand) (bid : Int)
    (bidderId bidderName : String) : GameHand :=
  { h with
    winningBid := some bid
    bidderId := some bidderId
    bidderName := some bidderName }

/-- `setPlayerMeld(playerId, meld)`. -/
def GameHand.setPlayerMeld (h : GameHand) (playerId : String) (meld : Int) :
    GameHand :=
  { h with playerMeld := setKey h.playerMeld playerId meld }

/-- `setPlayerScore(playerId, score)`. -/
def GameHand.setPlayerScore (h : GameHand) (playerId : String) (score : Int) :
    GameHand :=
  { h with playerScores := setKey h.playerScores playerId score }

/-- `throwIn()`: mark the hand thrown in and clear all bid data. -/
def GameHand.throwIn (h : GameHand) : GameHand :=
  { h with
    thrownIn := true
    winningBid := none
    bidderId := none
    bidderName := none
    playerMeld := []
    playerScores := [] }

/-- `isBidderSet()`: `if (!this.bidderId || !this.winningBid) return false;`
then `(bidderMeld + bidderScore) < this.winningBid` with `|| 0` defaults. -/
def GameHand.isBidderSet (h : GameHand) : Bool :=
  if !jsTruthyStr h.bidderId || !jsTruthyNum h.winningBid then
    false
  else
    let bidderMeld := lookupD h.playerMeld (h.bidderId.getD "")
    let bidderScore := lookupD h.playerScores (h.bidderId.getD "")
    decide (bidderMeld + bidderScore < h.winningBid.getD 0)

/-- `getPlayerHandTotal(playerId)`: `meld + score` with `|| 0` defaults. -/
def GameHand.getPlayerHandTotal (h : GameHand) (playerId : String) : Int :=
  lookupD h.playerMeld playerId + lookupD h.playerScores playerId

/-- The `{ valid, errors }` object `validate` returns. -/
structure ValidationResult where
  valid : Bool
  errors : List String
deriving DecidableEq, Repr

/-- The `player?.name || 'Player'` fallback used in validation messages. -/
def playerNameOrDefault (players : List Player) (playerId : String) : String :=
  match players.find? (fun p => p.id == playerId) with
  | some p => if p.name = "" then "Player" else p.name
  | none => "Player"

/-- The `for (const playerId in this.playerMeld)` loop of `validate`: one
message per stored meld entry that is not divisible by 10. -/
def meldErrors (players : List Player) : List (String × Int) → List String
  | [] => []
  | (playerId, meld) :: rest =>
    (if meld % 10 != 0 then
      [playerNameOrDefault players playerId ++ "'s meld must be divisible by 10"]
     else []) ++ meldErrors players rest

/-- `Object.values(this.playerScores).reduce((sum, score) => sum + score / 10, 0)`:
total tricks as the (exact) sum of the stored trick scores divided by 10. -/
def totalTricksOf (playerScores : List (String × Int)) : ℚ :=
  playerScores.foldl (fun sum kv => sum + (kv.2 : ℚ) / 10) 0

/-- `validate(players)`: meld-divisibility messages, then the total-tricks
message, with `valid := errors.length === 0`. -/
def GameHand.validate (h : GameHand) (players : List Player) : ValidationResult :=
  let errors := meldErrors players h.playerMeld
  let errors := errors ++
    (if totalTricksOf h.playerScores > 25 then ["Total tricks cannot exceed 25"]
     else [])
  { valid := errors.length == 0, errors := errors }

/-- The plain object `GameHand.toData()` produces (and `fromData` reads);
fields a legacy record may omit are `Option`s. -/
structure HandData where
  handNumber : Int
  winningBid : Option Int
  bidderId : Option String
  bidderName : Option String
  playerMeld : Option (List (String × Int))
  playerScores : Option (List (String × Int))
  timestamp : String
  dealerId : String
  dealerName : String
  thrownIn : Option Bool
deriving DecidableEq, Repr

/-- `toData()`: dump every field. -/
def GameHand.toData (h : GameHand) : HandData :=
  { handNumber := h.handNumber
    winningBid := h.winningBid
    bidderId := h.bidderId
    bidderName := h.bidderName
    playerMeld := some h.playerMeld
    playerScores := some h.playerScores
    timestamp := h.timestamp
    dealerId := h.dealerId
    dealerName := h.dealerName
    thrownIn := some h.thrownIn }

/-- `fromData(data)`: the constructor call followed by the field overwrites,
collapsed (the constructor's timestamp is overwritten by `data.timestamp`).
`data.playerMeld || {}`, `data.playerScores || {}` and `data.thrownIn || false`
are the `getD` defaults. -/
def GameHand.fromData (d : HandData) : GameHand :=
  { handNumber := d.handNumber
    winningBid := d.winningBid
    bidderId := d.bidderId
    bidderName := d.bidderName
    playerMeld := d.playerMeld.getD []
    playerScores := d.playerScores.getD []
    timestamp := d.timestamp
    dealerId := d.dealerId
    dealerName := d.dealerName
    thrownIn := d.thrownIn.getD false }

/-- src/models/Game.js: a complete game session. -/
structure Game where
  id : String
  gameType : Int
  players : List Player
  hands : List GameHand
  scores : List ScoreEntry
  startTime : String
  endTime : Option String
  targetScore : Int
  dealerIndex : Nat
  winnerId : Option String
  winnerName : Option String
deriving DecidableEq, Repr

/-- The Game constructor; `id` stands for `Date.now().toString()` and
`startTime` for `new Date().toISOString()`. -/
def Game.new (id : String) (players : List Player) (gameType : Int)
    (startTime : String) : Game :=
  { id := id
    gameType := gameType
    players := players
    hands := []
    scores := players.map (fun p => { playerId := p.id, name := p.name, score := 0 })
    startTime := startTime
    endTime := none
    targetScore := if gameType = 2 then 1000 else 1500
    dealerIndex := 0
    winnerId := none
    winnerName := none }

/-- `getCurrentDealer()`: `players[dealerIndex]` (`none` when out of range,
where JS yields `undefined`). -/
def Game.getCurrentDealer (g : Game) : Option Player :=
  g.players.get? g.dealerIndex

/-- `advanceDealer()`: `dealerIndex = (dealerIndex + 1) % players.length`. -/
def Game.advanceDealer (g : Game) : Game :=
  { g with dealerIndex := (g.dealerIndex + 1) % g.players.length }

/-- `getNextHandNumber()`: `hands.length + 1`. -/
def Game.getNextHandNumber (g : Game) : Nat :=
  g.hands.length + 1

/-- `scores.find(s => s.playerId === pid).score += d`: update the first
matching entry; `none` models the TypeError the JS code throws when `find`
comes back `undefined`. -/
def addToScore : List ScoreEntry → String → Int → Option (List ScoreEntry)
  | [], _, _ => none
  | s :: rest, pid, d =>
    if s.playerId = pid then some ({ s with score := s.score + d } :: rest)
    else (addToScore rest pid d).map (fun l => s :: l)

/-- The `players.forEach` loop inside `recalculateScores` crediting each
player their own `meld + trickScore`. With `skipBidder = true` it carries
the set-branch guard `if (player.id !== hand.bidderId)`; with
`skipBidder = false` it is the unguarded normal-scoring loop. -/
def scoreLoop (hand : GameHand) (skipBidder : Bool) :
    List Player → List ScoreEntry → Option (List ScoreEntry)
  | [], scores => some scores
  | p :: ps, scores =>
    if skipBidder && (hand.bidderId == some p.id) then
      scoreLoop hand skipBidder ps scores
    else
      match addToScore scores p.id
          (lookupD hand.playerMeld p.id + lookupD hand.playerScores p.id) with
      | none => none
      | some scores2 => scoreLoop hand skipBidder ps scores2

/-- The body of the `hands.forEach` in `recalculateScores`: one hand's
effect on the running score rows. -/
def applyHand (players : List Player) (scores : List ScoreEntry)
    (hand : GameHand) : Option (List ScoreEntry) :=
  if hand.thrownIn then some scores
  else if hand.isBidderSet then
    match addToScore scores (hand.bidderId.getD "")
        (-(hand.winningBid.getD 0)) with
    | none => none
    | some s1 => scoreLoop hand true players s1
  else scoreLoop hand false players scores

/-- The `hands.forEach` of `recalculateScores`: fold the hands in order. -/
def foldHands (players : List Player) (scores : List ScoreEntry) :
    List GameHand → Option (List ScoreEntry)
  | [] => some scores
  | h :: hs =>
    match applyHand players scores h with
    | none => none
    | some s2 => foldHands players s2 hs

/-- `this.scores.forEach(s => s.score = 0)`. -/
def resetScores (scores : List ScoreEntry) : List ScoreEntry :=
  scores.map (fun s => { s with score := 0 })

/-- `recalculateScores()`: zero every row, then replay all hands. -/
def Game.recalculateScores (g : Game) : Option Game :=
  match foldHands g.players (resetScores g.scores) g.hands with
  | none => none
  | some scores2 => some { g with scores := scores2 }

/-- `addHand(hand)`: push, recalculate, advance the dealer. -/
def Game.addHand (g : Game) (hand : GameHand) : Option Game :=
  match Game.recalculateScores { g with hands := g.hands ++ [hand] } with
  | none => none
  | some g2 => some g2.advanceDealer

/-- `checkForWinner()`: filter rows reaching `targetScore`, then
`reduce((prev, current) => (prev.score > current.score) ? prev : current)`. -/
def Game.checkForWinner (g : Game) : Option ScoreEntry :=
  match g.scores.filter (fun s => decide (s.score ≥ g.targetScore)) with
  | [] => none
  | w :: ws =>
    some (ws.foldl
      (fun prev current => if prev.score > current.score then prev else current) w)

/-- `endGame(winnerId, winnerName)`; `now` stands for
`new Date().toISOString()`. -/
def Game.endGame (g : Game) (now winnerId winnerName : String) : Game :=
  { g with
    endTime := some now
    winnerId := some winnerId
    winnerName := some winnerName }

/-- `isCompleted()`: `endTime !== null`. -/
def Game.isCompleted (g : Game) : Bool :=
  g.endTime.isSome

/-- The plain object `Game.toData()` produces. -/
structure GameData where
  id : String
  gameType : Int
  players : List Player
  hands : List HandData
  scores : List ScoreEntry
  startTime : String
  endTime : Option String
  targetScore : Int
  dealerIndex : Nat
  winnerId : Option String
  winnerName : Option String
deriving DecidableEq, Repr

/-- `toData()`: dump every field, hands through `GameHand.toData`. -/
def Game.toData (g : Game) : GameData :=
  { id := g.id
    gameType := g.gameType
    players := g.players
    hands := g.hands.map GameHand.toData
    scores := g.scores
    startTime := g.startTime
    endTime := g.endTime
    targetScore := g.targetScore
    dealerIndex := g.dealerIndex
    winnerId := g.winnerId
    winnerName := g.winnerName }

/-- `fromData(data)`: the constructor call followed by the field overwrites,
collapsed (every constructor-computed field is overwritten from `data`). -/
def Game.fromData (d : GameData) : Game :=
  { id := d.id
    gameType := d.gameType
    players := d.players
    hands := d.hands.map GameHand.fromData
    scores := d.scores
    startTime := d.startTime
    endTime := d.endTime
    targetScore := d.targetScore
    dealerIndex := d.dealerIndex
    winnerId := d.winnerId
    winnerName := d.winnerName }

/-- The signed score delta one hand contributes to one player under the
scoring rules: nothing for a thrown-in hand; when the bidder goes set, the
bidder loses exactly the winning bid and everyone else gains their own
`meld + trickScore`; otherwise everyone gains their own `meld + trickScore`
(missing map entries count as 0). -/
def handDelta (hand : GameHand) (pid : String) : Int :=
  if hand.thrownIn then 0
  else if hand.isBidderSet then
    if hand.bidderId = some pid then -(hand.winningBid.getD 0)
    else lookupD hand.playerMeld pid + lookupD hand.playerScores pid
  else lookupD hand.playerMeld pid + lookupD hand.playerScores pid

/-- A player's total from replaying a hand list from a zero baseline. -/
def replayScore (hands : List GameHand) (pid : String) : Int :=
  (hands.map (fun h => handDelta h pid)).sum

/-- The mutating operations `GameHand` exposes after construction. -/
inductive HandOp where
  | setWinningBid (bid : Int) (bidderId bidderName : String)
  | setPlayerMeld (playerId : String) (meld : Int)
  | setPlayerScore (playerId : String) (score : Int)
  | throwIn

/-- Run one `HandOp` against a hand. -/
def applyOp (h : GameHand) : HandOp → GameHand
  | .setWinningBid bid bidderId bidderName => h.setWinningBid bid bidderId bidderName
  | .setPlayerMeld playerId meld => h.setPlayerMeld playerId meld
  | .setPlayerScore playerId score => h.setPlayerScore playerId score
  | .throwIn => h.throwIn

/-- Run a sequence of `HandOp`s in order. -/
def applyOps (h : GameHand) (ops : List HandOp) : GameHand :=
  ops.foldl applyOp h

/-- A freshly created hand that has been thrown in. -/
def hThrown : GameHand := (GameHand.new 1 "d1" "Dealer" "t0").throwIn

/-- The exact 4-player team scenario of the spec and of Game.test.js:
individual scores 800/600/750/700, teams (P1,P3) and (P2,P4), target 1500. -/
def teamScenarioGame : Game :=
  { Game.new "game1"
      [⟨"player1", "Alice"⟩, ⟨"player2", "Bob"⟩,
       ⟨"player3", "Charlie"⟩, ⟨"player4", "Diana"⟩] 4 "t0" with
    scores :=
      [⟨"player1", "Alice", 800⟩, ⟨"player2", "Bob", 600⟩,
       ⟨"player3", "Charlie", 750⟩, ⟨"player4", "Diana", 700⟩] }

/-- The two players used by the concrete witness games. -/
def wPlayers : List Player := [⟨"p1", "Alice"⟩, ⟨"p2", "Bob"⟩]

/-- A thrown-in hand. -/
def wHandThrown : GameHand := (GameHand.new 1 "p1" "Alice" "t1").throwIn

/-- A hand where the bidder (p1, bid 300) goes set with 50 + 140 = 190. -/
def wHandSet : GameHand :=
  { handNumber := 2, winningBid := some 300, bidderId := some "p1",
    bidderName := some "Alice",
    playerMeld := [("p1", 50), ("p2", 30)],
    playerScores := [("p1", 140), ("p2", 110)],
    timestamp := "t2", dealerId := "p2", dealerName := "Bob", thrownIn := false }

/-- A hand where the bidder (p2, bid 250) exactly makes it with 150 + 100. -/
def wHandMade : GameHand :=
  { handNumber := 3, winningBid := some 250, bidderId := some "p2",
    bidderName := some "Bob",
    playerMeld := [("p1", 20), ("p2", 150)],
    playerScores := [("p1", 30), ("p2", 100)],
    timestamp := "t3", dealerId := "p1", dealerName := "Alice", thrownIn := false }

/-- A 2-player game holding a thrown-in, a set and a made hand. -/
def wGame : Game :=
  { Game.new "g1" wPlayers 2 "t0" with
    hands := [wHandThrown, wHandSet, wHandMade] }

/-- The zero baseline the scoring engine starts from: one zeroed row per
player (exactly what the Game constructor builds). -/
def zeroBaseline (players : List Player) : List ScoreEntry :=
  players.map (fun p => { playerId := p.id, name := p.name, score := 0 })

/-- The session states reachable through the public Game operations. -/
inductive Reachable : Game → Prop
  | new (id : String) (players : List Player) (gameType : Int)
      (startTime : String) : Reachable (Game.new id players gameType startTime)
  | addHand (g g' : Game) (hand : GameHand) : Reachable g →
      g.addHand hand = some g' → Reachable g'
  | recalc (g g' : Game) : Reachable g →
      g.recalculateScores = some g' → Reachable g'
  | endGame (g : Game) (now winnerId winnerName : String) : Reachable g →
      Reachable (g.endGame now winnerId winnerName)
  | advanceDealer (g : Game) : Reachable g → Reachable g.advanceDealer
  | roundTrip (g : Game) : Reachable g → Reachable (Game.fromData g.toData)

/-- The cache invariant: the rows list the players (ids and names, in
order) and replaying the hand list from the zero baseline reproduces the
cached scores. -/
def ScoresConsistent (g : Game) : Prop :=
  g.scores.map (fun s => (s.playerId, s.name)) =
    g.players.map (fun p => (p.id, p.name)) ∧
  foldHands g.players (zeroBaseline g.players) g.hands = some g.scores

/-- A state reached by one `addHand` on a fresh 2-player game. -/
def wReachedGame : Game :=
  { Game.new "g2" wPlayers 2 "t0" with
    hands := [wHandSet],
    scores := [⟨"p1", "Alice", -300⟩, ⟨"p2", "Bob", 140⟩],
    dealerIndex := 1 }

/-- The `reduce` of `checkForWinner`, folded from the first qualifying row. -/
def reduceWinner (w : ScoreEntry) (ws : List ScoreEntry) : ScoreEntry :=
  ws.foldl (fun prev current =>
    if prev.score > current.score then prev else current) w

/-- A 3-player game (target 1500) where two qualifying rows tie at 1600. -/
def tieGame : Game :=
  { Game.new "gt" [⟨"p1", "Alice"⟩, ⟨"p2", "Bob"⟩, ⟨"p3", "Carol"⟩] 3 "t0" with
    scores := [⟨"p1", "Alice", 1600⟩, ⟨"p2", "Bob", 1600⟩,
               ⟨"p3", "Carol", 100⟩] }

/-- `isBidderSet` is true exactly when a (truthy) bidder and a (truthy,
nonzero) bid are stored and the bidder's meld plus trick score falls
strictly below the bid. -/
theorem isBidderSet_iff (h : GameHand) :
    h.isBidderSet = true ↔
      ∃ b w, h.bidderId = some b ∧ h.winningBid = some w ∧ b ≠ "" ∧ w ≠ 0 ∧
        lookupD h.playerMeld b + lookupD h.playerScores b < w := by
  unfold GameHand.isBidderSet
  rcases hb : h.bidderId with _ | b
  · simp [jsTruthyStr]
  · rcases hw : h.winningBid with _ | w
    · simp [jsTruthyStr, jsTruthyNum]
    · by_cases hbe : b = ""
      · subst hbe
        simp [jsTruthyStr, jsTruthyNum]
      · by_cases hwz : w = 0
        · subst hwz
          simp [jsTruthyStr, jsTruthyNum, hbe]
        · simp [jsTruthyStr, jsTruthyNum, hbe, hwz, Option.getD]

/-- C5: `isBidderSet()` is true iff a bidder and a bid are both set (a
non-null, non-empty bidder id and a non-null, nonzero bid — JS truthiness,
exactly what the guard `!this.bidderId || !this.winningBid` tests) and the
bidder's meld plus trick score is strictly below the bid (missing map
entries counting as 0); exactly meeting the bid yields false, and a missing
bidder or bid yields false. -/
theorem isBidderSet_characterization (h : GameHand) :
    (h.isBidderSet = true ↔
      ∃ b w, h.bidderId = some b ∧ h.winningBid = some w ∧ b ≠ "" ∧ w ≠ 0 ∧
        lookupD h.playerMeld b + lookupD h.playerScores b < w) ∧
    (∀ b w, h.bidderId = some b → h.winningBid = some w →
      lookupD h.playerMeld b + lookupD h.playerScores b = w →
      h.isBidderSet = false) ∧
    ((h.bidderId = none ∨ h.winningBid = none) → h.isBidderSet = false) := by
  refine ⟨isBidderSet_iff h, ?_, ?_⟩
  · intro b w hb hw heq
    cases hset : h.isBidderSet
    · rfl
    · rcases (isBidderSet_iff h).mp hset with ⟨b2, w2, hb2, hw2, _, _, hlt⟩
      rw [hb] at hb2
      rw [hw] at hw2
      cases hb2
      cases hw2
      omega
  · intro habs
    cases hset : h.isBidderSet
    · rfl
    · rcases (isBidderSet_iff h).mp hset with ⟨b2, w2, hb2, hw2, _, _, _⟩
      rcases habs with habs | habs <;> simp [habs] at hb2 hw2

/-- Every `GameHand` survives the `toData`/`fromData` round trip
unchanged (the stored maps and the thrown-in flag are present in the dump,
so the `|| {}` and `|| false` defaults in `fromData` do not fire). -/
theorem hand_roundtrip (h : GameHand) : GameHand.fromData h.toData = h := rfl

/-- C7: `GameHand.fromData(hand.toData())` deep-equals the original hand —
structure equality covers `handNumber`, `winningBid`, `bidderId`,
`bidderName`, `playerMeld`, `playerScores`, `timestamp`, `dealerId`,
`dealerName` and `thrownIn`, for thrown-in hands as well. -/
theorem hand_toData_fromData_roundtrip (h : GameHand) :
    GameHand.fromData h.toData = h ∧
    GameHand.fromData (h.throwIn.toData) = h.throwIn :=
  ⟨rfl, rfl⟩

theorem applyOp_thrownIn (h : GameHand) (op : HandOp) (hth : h.thrownIn = true) :
    (applyOp h op).thrownIn = true := by
  cases op <;>
    simp [applyOp, GameHand.setWinningBid, GameHand.setPlayerMeld,
      GameHand.setPlayerScore, GameHand.throwIn, hth]

theorem applyOps_thrownIn (ops : List HandOp) (h : GameHand)
    (hth : h.thrownIn = true) : (applyOps h ops).thrownIn = true := by
  induction ops generalizing h with
  | nil => exact hth
  | cons op rest ih => exact ih (applyOp h op) (applyOp_thrownIn h op hth)

/-- C9 (amended): `throwIn()` clears the bid, bidder, meld and score fields
and sets `thrownIn`; no subsequent `GameHand` operation (the setters or
another `throwIn`) ever resets `thrownIn` — the hand stays marked thrown-in
until recreated — though the unguarded setters can still write bid data. -/
theorem throwIn_clears_and_marks_forever (h : GameHand) (ops : List HandOp) :
    (h.throwIn.winningBid = none ∧ h.throwIn.bidderId = none ∧
     h.throwIn.bidderName = none ∧ h.throwIn.playerMeld = [] ∧
     h.throwIn.playerScores = [] ∧ h.throwIn.thrownIn = true) ∧
    (applyOps h.throwIn ops).thrownIn = true :=
  ⟨⟨rfl, rfl, rfl, rfl, rfl, rfl⟩, applyOps_thrownIn ops h.throwIn rfl⟩

/-- C9 (counterexample): a thrown-in hand DOES later acquire bid data
through `setWinningBid`, without being recreated — the setter is
unguarded, refuting "can never later acquire bid data". -/
theorem thrownIn_hand_reacquires_bid_data :
    (hThrown.setWinningBid 300 "p1" "Alice").winningBid = some 300 ∧
    (hThrown.setWinningBid 300 "p1" "Alice").bidderId = some "p1" ∧
    (hThrown.setWinningBid 300 "p1" "Alice").thrownIn = true :=
  ⟨rfl, rfl, rfl⟩

/-- C2 (failing input): on the 4-player team scenario — teamA totals
800 + 750 = 1550 ≥ 1500 — `checkForWinner` returns nothing: the shipped
`Game.checkForWinner` has no team branch at all, it only filters the four
individual rows (all below 1500) against `targetScore`. -/
theorem checkForWinner_no_team_logic :
    teamScenarioGame.checkForWinner = none ∧
    teamScenarioGame.targetScore = 1500 :=
  ⟨rfl, rfl⟩

theorem meldErrors_eq_nil_iff (players : List Player) (l : List (String × Int)) :
    meldErrors players l = [] ↔ ∀ pm ∈ l, (10 : Int) ∣ pm.2 := by
  induction l with
  | nil => simp [meldErrors]
  | cons pm rest ih =>
    by_cases hm : pm.2 % 10 = 0
    · have hd : (10 : Int) ∣ pm.2 := Int.dvd_of_emod_eq_zero hm
      simp [meldErrors, hm, ih, hd]
    · have hd : ¬ (10 : Int) ∣ pm.2 := fun hdvd => hm (Int.emod_eq_zero_of_dvd hdvd)
      refine iff_of_false ?_ ?_
      · simp [meldErrors, hm]
      · intro hall
        exact hd (hall pm (by simp))

theorem meldErrors_length (players : List Player) (l : List (String × Int)) :
    (meldErrors players l).length =
      (l.filter (fun pm => pm.2 % 10 != 0)).length := by
  induction l with
  | nil => rfl
  | cons pm rest ih =>
    by_cases hm : pm.2 % 10 = 0 <;>
      simp [meldErrors, List.filter_cons, hm, ih]

/-- C8: `validate(players)` reports no errors iff every stored meld value is
a multiple of 10 and the total tricks (sum of stored trick scores divided by
10) is at most 25; otherwise it reports exactly one message per stored meld
entry that is not a multiple of 10, plus one message when the tricks total
exceeds 25, and `valid` mirrors emptiness of the message list. `validate`
is embedded as a pure function of the hand — it mutates nothing by
construction. -/
theorem validate_characterization (h : GameHand) (players : List Player) :
    ((h.validate players).errors = [] ↔
      (∀ pm ∈ h.playerMeld, (10 : Int) ∣ pm.2) ∧
        totalTricksOf h.playerScores ≤ 25) ∧
    (h.validate players).errors.length =
      (h.playerMeld.filter (fun pm => pm.2 % 10 != 0)).length +
        (if totalTricksOf h.playerScores > 25 then 1 else 0) ∧
    (h.validate players).valid = ((h.validate players).errors.length == 0) := by
  refine ⟨?_, ?_, rfl⟩
  · simp only [GameHand.validate, List.append_eq_nil]
    constructor
    · rintro ⟨hmeld, htr⟩
      refine ⟨(meldErrors_eq_nil_iff players h.playerMeld).mp hmeld, ?_⟩
      by_contra hgt
      push_neg at hgt
      simp [hgt] at htr
    · rintro ⟨hmeld, htr⟩
      refine ⟨(meldErrors_eq_nil_iff players h.playerMeld).mpr hmeld, ?_⟩
      simp [not_lt.mpr htr]
  · simp only [GameHand.validate, List.length_append, meldErrors_length]
    by_cases htr : totalTricksOf h.playerScores > 25 <;> simp [htr]

/-- C10: `endGame` stamps `endTime`, `winnerId`, `winnerName` and touches
nothing else; it disables nothing — `addHand` on an ended session behaves
exactly as on the un-ended session (the two operations commute), and a
second `endGame` simply overwrites the stamp fields. -/
theorem endGame_only_stamps_and_disables_nothing (g : Game)
    (t w n t2 w2 n2 : String) (hand : GameHand) :
    ((g.endGame t w n).endTime = some t ∧
     (g.endGame t w n).winnerId = some w ∧
     (g.endGame t w n).winnerName = some n ∧
     (g.endGame t w n).id = g.id ∧
     (g.endGame t w n).gameType = g.gameType ∧
     (g.endGame t w n).players = g.players ∧
     (g.endGame t w n).hands = g.hands ∧
     (g.endGame t w n).scores = g.scores ∧
     (g.endGame t w n).startTime = g.startTime ∧
     (g.endGame t w n).targetScore = g.targetScore ∧
     (g.endGame t w n).dealerIndex = g.dealerIndex) ∧
    (g.endGame t w n).addHand hand =
      (g.addHand hand).map (fun g2 => g2.endGame t w n) ∧
    (g.endGame t w n).endGame t2 w2 n2 = g.endGame t2 w2 n2 := by
  refine ⟨⟨rfl, rfl, rfl, rfl, rfl, rfl, rfl, rfl, rfl, rfl, rfl⟩, ?_, rfl⟩
  unfold Game.addHand Game.recalculateScores
  cases hE : foldHands g.players (resetScores g.scores) (g.hands ++ [hand]) <;>
    simp [Game.endGame, Game.advanceDealer, hE]

theorem map_update_eq_self (l : List ScoreEntry) (pid : String) (d : Int)
    (h : ∀ x ∈ l, x.playerId ≠ pid) :
    l.map (fun s => if s.playerId = pid then { s with score := s.score + d } else s)
      = l := by
  induction l with
  | nil => rfl
  | cons s rest ih =>
    have hs : s.playerId ≠ pid := h s (by simp)
    simp only [List.map_cons, if_neg hs]
    rw [ih (fun x hx => h x (by simp [hx]))]

theorem addToScore_eq_map (l : List ScoreEntry) (pid : String) (d : Int)
    (hmem : pid ∈ l.map (fun s => s.playerId))
    (hnd : (l.map (fun s => s.playerId)).Nodup) :
    addToScore l pid d =
      some (l.map (fun s =>
        if s.playerId = pid then { s with score := s.score + d } else s)) := by
  induction l with
  | nil => simp at hmem
  | cons s rest ih =>
    by_cases hsp : s.playerId = pid
    · simp only [addToScore, if_pos hsp, List.map_cons, if_pos hsp]
      have hrest : ∀ x ∈ rest, x.playerId ≠ pid := by
        intro x hx
        simp only [List.map_cons, List.nodup_cons] at hnd
        intro hxe
        exact hnd.1 (hsp ▸ hxe ▸ List.mem_map_of_mem (fun s => s.playerId) hx)
      rw [map_update_eq_self rest pid d hrest]
    · simp only [List.map_cons, List.mem_cons] at hmem
      rcases hmem with hmem | hmem
      · exact absurd hmem.symm hsp
      · simp only [List.map_cons, List.nodup_cons] at hnd
        simp only [addToScore, if_neg hsp, List.map_cons, if_neg hsp,
          ih hmem hnd.2]
        rfl

theorem addToScore_isNone (l : List ScoreEntry) (pid : String) (d : Int)
    (hmem : pid ∉ l.map (fun s => s.playerId)) :
    addToScore l pid d = none := by
  induction l with
  | nil => rfl
  | cons s rest ih =>
    simp only [List.map_cons, List.mem_cons, not_or] at hmem
    have hne : s.playerId ≠ pid := fun he => hmem.1 he.symm
    simp only [addToScore, if_neg hne, ih hmem.2]
    rfl

theorem map_playerId_update (l : List ScoreEntry) (pid : String) (d : Int) :
    (l.map (fun s =>
        if s.playerId = pid then { s with score := s.score + d } else s)).map
      (fun s => s.playerId) = l.map (fun s => s.playerId) := by
  rw [List.map_map]
  exact List.map_congr_left (fun s _ => by by_cases h : s.playerId = pid <;> simp [h])

theorem scoreLoop_eq (hand : GameHand) (b : Bool) (ps : List Player)
    (scores : List ScoreEntry)
    (hndP : (ps.map (fun p => p.id)).Nodup)
    (hndS : (scores.map (fun s => s.playerId)).Nodup)
    (hsub : ∀ p ∈ ps, ¬(b = true ∧ hand.bidderId = some p.id) →
        p.id ∈ scores.map (fun s => s.playerId)) :
    scoreLoop hand b ps scores =
      some (scores.map (fun s =>
        if s.playerId ∈ ps.map (fun p => p.id) ∧
            ¬(b = true ∧ hand.bidderId = some s.playerId) then
          { s with score := s.score +
            (lookupD hand.playerMeld s.playerId +
              lookupD hand.playerScores s.playerId) }
        else s)) := by
  induction ps generalizing scores with
  | nil =>
    simp only [scoreLoop, List.map_nil, List.not_mem_nil, false_and, if_neg,
      not_false_iff]
    rw [List.map_congr_left (g := id) (fun s _ => by simp), List.map_id]
  | cons p ps ih =>
    by_cases hguard : (b && (hand.bidderId == some p.id)) = true
    · have hb : b = true ∧ hand.bidderId = some p.id := by
        simpa [Bool.and_eq_true, beq_iff_eq] using hguard
      rw [scoreLoop, if_pos hguard]
      rw [ih scores hndP.of_cons hndS
        (fun q hq hcond => hsub q (List.mem_cons_of_mem p hq) hcond)]
      congr 1
      refine List.map_congr_left (fun s _ => ?_)
      by_cases h2 : hand.bidderId = some s.playerId
      · simp [hb.1, h2]
      · have hmem : s.playerId ∈ p.id :: ps.map (fun p => p.id) ↔
            s.playerId ∈ ps.map (fun p => p.id) := by
          constructor
          · intro hm
            rcases List.mem_cons.mp hm with he | hm2
            · exact absurd (he ▸ hb.2) h2
            · exact hm2
          · exact List.mem_cons_of_mem _
        by_cases h3 : s.playerId ∈ ps.map (fun p => p.id) <;>
          simp [List.map_cons, hmem, h2, h3, hb.1]
    · have hnotskip : ¬(b = true ∧ hand.bidderId = some p.id) := by
        intro ⟨h1, h2⟩
        exact hguard (by simp [h1, h2])
      have hpid : p.id ∈ scores.map (fun s => s.playerId) :=
        hsub p (List.mem_cons_self p _) hnotskip
      rw [scoreLoop, if_neg hguard,
        addToScore_eq_map scores p.id _ hpid hndS]
      have hids :
          ((scores.map (fun s => if s.playerId = p.id then
              { s with score := s.score +
                (lookupD hand.playerMeld p.id + lookupD hand.playerScores p.id) }
            else s)).map (fun s => s.playerId)) =
            scores.map (fun s => s.playerId) := map_playerId_update scores p.id _
      refine Eq.trans (ih _ hndP.of_cons (hids ▸ hndS)
        (fun q hq hcond => hids ▸ hsub q (List.mem_cons_of_mem p hq) hcond)) ?_
      congr 1
      rw [List.map_map]
      refine List.map_congr_left (fun s hs => ?_)
      have hpnotin : p.id ∉ ps.map (fun p => p.id) :=
        (List.nodup_cons.mp hndP).1
      by_cases h1 : s.playerId = p.id
      · have hnotps : s.playerId ∉ ps.map (fun p => p.id) := h1 ▸ hpnotin
        have hcond2 : ¬(b = true ∧ hand.bidderId = some s.playerId) := by
          rw [h1]
          exact hnotskip
        have hex : ¬∃ a ∈ ps, a.id = p.id := by
          rintro ⟨a, ha, hae⟩
          exact hpnotin (hae ▸ List.mem_map_of_mem (fun p => p.id) ha)
        simp [Function.comp, h1, hnotps, hex, hnotskip]
      · by_cases h2 : s.playerId ∈ ps.map (fun p => p.id) <;>
          by_cases h3 : b = true ∧ hand.bidderId = some s.playerId <;>
            simp [Function.comp, h1, h2, h3]

theorem add_zero_map (l : List ScoreEntry) :
    l.map (fun s => { s with score := s.score + 0 }) = l := by
  rw [List.map_congr_left (g := id) (fun s _ => by simp), List.map_id]

theorem applyHand_eq (players : List Player) (scores : List ScoreEntry)
    (hand : GameHand)
    (halign : scores.map (fun s => s.playerId) = players.map (fun p => p.id))
    (hnd : (players.map (fun p => p.id)).Nodup)
    (hbid : hand.isBidderSet = true →
      hand.bidderId.getD "" ∈ players.map (fun p => p.id)) :
    applyHand players scores hand =
      some (scores.map (fun s =>
        { s with score := s.score + handDelta hand s.playerId })) := by
  have hndS : (scores.map (fun s => s.playerId)).Nodup := halign ▸ hnd
  by_cases hth : hand.thrownIn
  · simp only [applyHand, if_pos hth, handDelta, hth, if_true]
    rw [add_zero_map]
  · by_cases hset : hand.isBidderSet = true
    · obtain ⟨bn, w, hb, hw, hbne, hwne, hlt⟩ := (isBidderSet_iff hand).mp hset
      have hbmem : bn ∈ scores.map (fun s => s.playerId) := by
        rw [halign]
        have := hbid hset
        rwa [hb, Option.getD_some] at this
      rw [applyHand, if_neg (by simp [hth]), if_pos hset, hb, hw]
      simp only [Option.getD_some]
      rw [addToScore_eq_map scores bn (-w) hbmem hndS]
      have hids := map_playerId_update scores bn (-w)
      refine Eq.trans (scoreLoop_eq hand true players _ hnd (hids ▸ hndS)
        (fun q hq _ => by rw [hids, halign]; exact List.mem_map_of_mem _ hq)) ?_
      congr 1
      rw [List.map_map]
      refine List.map_congr_left (fun s hs => ?_)
      have hsmem : s.playerId ∈ players.map (fun p => p.id) := by
        rw [← halign]
        exact List.mem_map_of_mem _ hs
      by_cases h1 : s.playerId = bn
      · have h2 : hand.bidderId = some s.playerId := by rw [hb, h1]
        simp [Function.comp, h1, handDelta, hth, hset, h2, hb, hw]
      · have h2 : ¬hand.bidderId = some s.playerId := by
          rw [hb]
          intro he
          exact h1 (Option.some.injEq _ _ ▸ he).symm
        simp [Function.comp, h1, handDelta, hth, hset, h2, hsmem]
    · rw [applyHand, if_neg (by simp [hth]), if_neg (by simp [hset])]
      refine Eq.trans (scoreLoop_eq hand false players scores hnd hndS
        (fun q hq _ => by rw [halign]; exact List.mem_map_of_mem _ hq)) ?_
      congr 1
      refine List.map_congr_left (fun s hs => ?_)
      have hsmem : s.playerId ∈ players.map (fun p => p.id) := by
        rw [← halign]
        exact List.mem_map_of_mem _ hs
      simp [handDelta, hth, hset, hsmem]

theorem map_playerId_shift (l : List ScoreEntry) (f : String → Int) :
    (l.map (fun s => { s with score := s.score + f s.playerId })).map
      (fun s => s.playerId) = l.map (fun s => s.playerId) := by
  rw [List.map_map]
  exact List.map_congr_left (fun s _ => rfl)

theorem foldHands_eq (players : List Player) (hands : List GameHand)
    (scores : List ScoreEntry)
    (halign : scores.map (fun s => s.playerId) = players.map (fun p => p.id))
    (hnd : (players.map (fun p => p.id)).Nodup)
    (hbid : ∀ hand ∈ hands, hand.isBidderSet = true →
      hand.bidderId.getD "" ∈ players.map (fun p => p.id)) :
    foldHands players scores hands =
      some (scores.map (fun s =>
        { s with score := s.score + replayScore hands s.playerId })) := by
  induction hands generalizing scores with
  | nil =>
    simp only [foldHands, replayScore, List.map_nil, List.sum_nil]
    rw [add_zero_map]
  | cons h hs ih =>
    rw [foldHands, applyHand_eq players scores h halign hnd
      (hbid h (List.mem_cons_self h hs))]
    have hids := map_playerId_shift scores (fun pid => handDelta h pid)
    refine Eq.trans (ih _ (by rw [hids, halign])
      (fun hand hm hset => hbid hand (List.mem_cons_of_mem h hm) hset)) ?_
    congr 1
    rw [List.map_map]
    refine List.map_congr_left (fun s _ => ?_)
    simp [Function.comp, replayScore, add_assoc]

theorem recalculateScores_eq (g : Game)
    (halign : g.scores.map (fun s => s.playerId) = g.players.map (fun p => p.id))
    (hnd : (g.players.map (fun p => p.id)).Nodup)
    (hbid : ∀ hand ∈ g.hands, hand.isBidderSet = true →
      hand.bidderId.getD "" ∈ g.players.map (fun p => p.id)) :
    g.recalculateScores = some { g with scores := g.scores.map (fun s =>
      { playerId := s.playerId, name := s.name,
        score := replayScore g.hands s.playerId }) } := by
  have halign2 : (resetScores g.scores).map (fun s => s.playerId) =
      g.players.map (fun p => p.id) := by
    rw [resetScores, List.map_map]
    rw [← halign]
    exact List.map_congr_left (fun s _ => rfl)
  have hfold := foldHands_eq g.players g.hands (resetScores g.scores) halign2 hnd hbid
  have hscores : (resetScores g.scores).map
      (fun s => { s with score := s.score + replayScore g.hands s.playerId }) =
      g.scores.map (fun s =>
        { playerId := s.playerId, name := s.name,
          score := replayScore g.hands s.playerId }) := by
    rw [resetScores, List.map_map]
    exact List.map_congr_left (fun s _ => by simp [Function.comp])
  simp only [Game.recalculateScores, hfold, hscores]

/-- C1: `recalculateScores` replaces the score rows with a fold of the
hands from a zero baseline — per hand and player the contribution is
`handDelta`: zero for a thrown-in hand; when `isBidderSet()` holds, exactly
`-winningBid` for the bidder (whose own meld and trick score contribute
nothing) and each other player's own `meld + trickScore` (missing entries
counting 0); when it does not hold, every player's own `meld + trickScore`.
Hypotheses: the cached rows list the players (in order, distinct ids) and
every set hand's bidder is one of the players (otherwise the JS code
throws on `find`). -/
theorem recalculateScores_folds_from_zero (g : Game)
    (halign : g.scores.map (fun s => s.playerId) = g.players.map (fun p => p.id))
    (hnd : (g.players.map (fun p => p.id)).Nodup)
    (hbid : ∀ hand ∈ g.hands, hand.isBidderSet = true →
      hand.bidderId.getD "" ∈ g.players.map (fun p => p.id)) :
    (g.recalculateScores = some { g with scores := g.scores.map (fun s =>
      { playerId := s.playerId, name := s.name,
        score := replayScore g.hands s.playerId }) }) ∧
    (∀ hand : GameHand, ∀ pid, hand.thrownIn = true → handDelta hand pid = 0) ∧
    (∀ hand : GameHand, ∀ pid, hand.thrownIn = false →
      hand.isBidderSet = true → hand.bidderId = some pid →
      handDelta hand pid = -(hand.winningBid.getD 0)) ∧
    (∀ hand : GameHand, ∀ pid, hand.thrownIn = false →
      hand.isBidderSet = true → hand.bidderId ≠ some pid →
      handDelta hand pid =
        lookupD hand.playerMeld pid + lookupD hand.playerScores pid) ∧
    (∀ hand : GameHand, ∀ pid, hand.thrownIn = false →
      hand.isBidderSet = false →
      handDelta hand pid =
        lookupD hand.playerMeld pid + lookupD hand.playerScores pid) := by
  refine ⟨recalculateScores_eq g halign hnd hbid, ?_, ?_, ?_, ?_⟩
  · intro hand pid hth
    simp [handDelta, hth]
  · intro hand pid hth hset hb
    simp [handDelta, hth, hset, hb]
  · intro hand pid hth hset hb
    simp [handDelta, hth, hset, hb]
  · intro hand pid hth hset
    simp [handDelta, hth, hset]

theorem recalculateScores_folds_from_zero_witness :
    wGame.recalculateScores = some { wGame with scores :=
      [⟨"p1", "Alice", -250⟩, ⟨"p2", "Bob", 390⟩] } := by
  have h := (recalculateScores_folds_from_zero wGame rfl (by decide)
    (by decide)).1
  rw [h]
  rfl

/-- C6: `addHand(h)` appends `h`, recomputes every score in full (the new
rows replay `hands ++ [h]` from zero, so they reflect `h`), and advances
the dealer by exactly one position modulo the player count — for thrown-in
hands as well; nothing else of the session changes. -/
theorem addHand_appends_rescores_advances (g : Game) (hand : GameHand)
    (halign : g.scores.map (fun s => s.playerId) = g.players.map (fun p => p.id))
    (hnd : (g.players.map (fun p => p.id)).Nodup)
    (hbid : ∀ h ∈ g.hands ++ [hand], h.isBidderSet = true →
      h.bidderId.getD "" ∈ g.players.map (fun p => p.id)) :
    g.addHand hand = some
      { g with
        hands := g.hands ++ [hand],
        scores := g.scores.map (fun s =>
          { playerId := s.playerId, name := s.name,
            score := replayScore (g.hands ++ [hand]) s.playerId }),
        dealerIndex := (g.dealerIndex + 1) % g.players.length } := by
  have h2 := recalculateScores_eq { g with hands := g.hands ++ [hand] }
    halign hnd hbid
  simp only [Game.addHand, h2, Game.advanceDealer]

theorem addHand_appends_rescores_advances_witness :
    (Game.new "g2" wPlayers 2 "t0").addHand wHandSet = some
      { Game.new "g2" wPlayers 2 "t0" with
        hands := [wHandSet],
        scores := [⟨"p1", "Alice", -300⟩, ⟨"p2", "Bob", 140⟩],
        dealerIndex := 1 } := by
  have h := addHand_appends_rescores_advances (Game.new "g2" wPlayers 2 "t0")
    wHandSet rfl (by decide) (by decide)
  rw [h]
  rfl

theorem addToScore_proj (l : List ScoreEntry) (pid : String) (d : Int)
    (out : List ScoreEntry) (h : addToScore l pid d = some out) :
    out.map (fun s => (s.playerId, s.name)) =
      l.map (fun s => (s.playerId, s.name)) := by
  induction l generalizing out with
  | nil => simp [addToScore] at h
  | cons s rest ih =>
    by_cases hsp : s.playerId = pid
    · rw [addToScore, if_pos hsp] at h
      cases h
      simp
    · rw [addToScore, if_neg hsp] at h
      cases hrec : addToScore rest pid d with
      | none => rw [hrec] at h; simp at h
      | some out2 =>
        rw [hrec] at h
        cases h
        simp [ih out2 hrec]

theorem scoreLoop_proj (hand : GameHand) (b : Bool) (ps : List Player)
    (scores out : List ScoreEntry) (h : scoreLoop hand b ps scores = some out) :
    out.map (fun s => (s.playerId, s.name)) =
      scores.map (fun s => (s.playerId, s.name)) := by
  induction ps generalizing scores with
  | nil =>
    rw [scoreLoop] at h
    cases h
    rfl
  | cons p ps ih =>
    rw [scoreLoop] at h
    by_cases hguard : (b && (hand.bidderId == some p.id)) = true
    · rw [if_pos hguard] at h
      exact ih scores h
    · rw [if_neg hguard] at h
      cases hadd : addToScore scores p.id
          (lookupD hand.playerMeld p.id + lookupD hand.playerScores p.id) with
      | none => rw [hadd] at h; simp at h
      | some scores2 =>
        rw [hadd] at h
        rw [ih scores2 h, addToScore_proj scores p.id _ scores2 hadd]

theorem applyHand_proj (players : List Player) (scores out : List ScoreEntry)
    (hand : GameHand) (h : applyHand players scores hand = some out) :
    out.map (fun s => (s.playerId, s.name)) =
      scores.map (fun s => (s.playerId, s.name)) := by
  rw [applyHand] at h
  by_cases hth : hand.thrownIn
  · rw [if_pos hth] at h
    cases h
    rfl
  · rw [if_neg hth] at h
    by_cases hset : hand.isBidderSet = true
    · rw [if_pos hset] at h
      cases hadd : addToScore scores (hand.bidderId.getD "")
          (-(hand.winningBid.getD 0)) with
      | none => rw [hadd] at h; simp at h
      | some s1 =>
        rw [hadd] at h
        rw [scoreLoop_proj hand true players s1 out h,
          addToScore_proj scores _ _ s1 hadd]
    · rw [if_neg hset] at h
      exact scoreLoop_proj hand false players scores out h

theorem foldHands_proj (players : List Player) (hands : List GameHand)
    (scores out : List ScoreEntry)
    (h : foldHands players scores hands = some out) :
    out.map (fun s => (s.playerId, s.name)) =
      scores.map (fun s => (s.playerId, s.name)) := by
  induction hands generalizing scores with
  | nil =>
    rw [foldHands] at h
    cases h
    rfl
  | cons hd hs ih =>
    rw [foldHands] at h
    cases happ : applyHand players scores hd with
    | none => rw [happ] at h; simp at h
    | some s2 =>
      rw [happ] at h
      rw [ih s2 h, applyHand_proj players scores s2 hd happ]

theorem reset_eq_zeroBaseline (scores : List ScoreEntry)
    (players : List Player)
    (h : scores.map (fun s => (s.playerId, s.name)) =
      players.map (fun p => (p.id, p.name))) :
    resetScores scores = zeroBaseline players := by
  induction scores generalizing players with
  | nil =>
    cases players with
    | nil => rfl
    | cons p ps => simp at h
  | cons s rest ih =>
    cases players with
    | nil => simp at h
    | cons p ps =>
      simp only [List.map_cons, List.cons.injEq, Prod.mk.injEq] at h
      obtain ⟨⟨hid, hname⟩, hrest⟩ := h
      simp only [resetScores, zeroBaseline, List.map_cons]
      have htail := ih ps hrest
      rw [resetScores, zeroBaseline] at htail
      rw [htail, hid, hname]

theorem hand_roundtrip_comp (g : Game) : Game.fromData g.toData = g := by
  have hfun : GameHand.fromData ∘ GameHand.toData = id :=
    funext (fun h => hand_roundtrip h)
  have hh : (g.hands.map GameHand.toData).map GameHand.fromData = g.hands := by
    rw [List.map_map, hfun, List.map_id]
  simp only [Game.fromData, Game.toData, hh]

theorem reachable_scoresConsistent (g : Game) (h : Reachable g) :
    ScoresConsistent g := by
  induction h with
  | new id players gameType startTime =>
    constructor
    · simp [Game.new, List.map_map, Function.comp]
    · rfl
  | addHand g g' hand hg hstep ih =>
    rw [Game.addHand] at hstep
    cases hrec : Game.recalculateScores { g with hands := g.hands ++ [hand] } with
    | none => rw [hrec] at hstep; simp at hstep
    | some g2 =>
      rw [hrec] at hstep
      cases hstep
      rw [Game.recalculateScores] at hrec
      cases hf : foldHands g.players
          (resetScores g.scores) (g.hands ++ [hand]) with
      | none => rw [hf] at hrec; simp at hrec
      | some s2 =>
        rw [hf] at hrec
        cases hrec
        have hzero : resetScores g.scores = zeroBaseline g.players :=
          reset_eq_zeroBaseline g.scores g.players ih.1
        rw [hzero] at hf
        constructor
        · have hproj := foldHands_proj g.players (g.hands ++ [hand])
            (zeroBaseline g.players) s2 hf
          have hzb : (zeroBaseline g.players).map
              (fun s => (s.playerId, s.name)) =
              g.players.map (fun p => (p.id, p.name)) := by
            simp [zeroBaseline, List.map_map, Function.comp]
          simpa [Game.advanceDealer, hzb] using hproj.trans hzb
        · simpa [Game.advanceDealer] using hf
  | recalc g g' hg hstep ih =>
    rw [Game.recalculateScores] at hstep
    cases hf : foldHands g.players (resetScores g.scores) g.hands with
    | none => rw [hf] at hstep; simp at hstep
    | some s2 =>
      rw [hf] at hstep
      cases hstep
      have hzero : resetScores g.scores = zeroBaseline g.players :=
        reset_eq_zeroBaseline g.scores g.players ih.1
      rw [hzero] at hf
      constructor
      · have hproj := foldHands_proj g.players g.hands
          (zeroBaseline g.players) s2 hf
        have hzb : (zeroBaseline g.players).map
            (fun s => (s.playerId, s.name)) =
            g.players.map (fun p => (p.id, p.name)) := by
          simp [zeroBaseline, List.map_map, Function.comp]
        simpa [hzb] using hproj.trans hzb
      · simpa using hf
  | endGame g now winnerId winnerName hg ih => exact ih
  | advanceDealer g hg ih => exact ih
  | roundTrip g hg ih => rw [hand_roundtrip_comp g]; exact ih

/-- C4: in every session state reachable through the public Game
operations (construction, `addHand`, `recalculateScores`, `endGame`,
`advanceDealer` and `toData`/`fromData` round trips), the cached `scores`
field equals the result of replaying the session's hands through the
scoring engine from the zero baseline. -/
theorem cached_scores_equal_replay (g : Game) (h : Reachable g) :
    foldHands g.players (zeroBaseline g.players) g.hands = some g.scores :=
  (reachable_scoresConsistent g h).2

theorem cached_scores_equal_replay_witness :
    foldHands wReachedGame.players (zeroBaseline wReachedGame.players)
      wReachedGame.hands = some wReachedGame.scores :=
  cached_scores_equal_replay wReachedGame
    (Reachable.addHand (Game.new "g2" wPlayers 2 "t0") wReachedGame wHandSet
      (Reachable.new "g2" wPlayers 2 "t0") (by decide))

theorem reduceWinner_spec (ws : List ScoreEntry) (w : ScoreEntry) :
    reduceWinner w ws ∈ w :: ws ∧
    (∀ q ∈ w :: ws, q.score ≤ (reduceWinner w ws).score) ∧
    ∃ l1 l2, w :: ws = l1 ++ (reduceWinner w ws) :: l2 ∧
      ∀ q ∈ l2, q.score < (reduceWinner w ws).score := by
  induction ws generalizing w with
  | nil =>
    refine ⟨by simp [reduceWinner], by simp [reduceWinner], [], [], ?_, by simp⟩
    simp [reduceWinner]
  | cons c ws ih =>
    by_cases hcmp : w.score > c.score
    · have hred : reduceWinner w (c :: ws) = reduceWinner w ws := by
        simp [reduceWinner, List.foldl_cons, hcmp]
      rw [hred]
      obtain ⟨hmem, hmax, l1, l2, hsplit, hstrict⟩ := ih w
      generalize hgen : reduceWinner w ws = r at hmem hmax hsplit hstrict ⊢
      refine ⟨?_, ?_, ?_⟩
      · rcases List.mem_cons.mp hmem with he | hm
        · rw [he]
          exact List.mem_cons_self _ _
        · exact List.mem_cons_of_mem _ (List.mem_cons_of_mem _ hm)
      · intro q hq
        rcases List.mem_cons.mp hq with he | hq2
        · rw [he]
          exact hmax w (List.mem_cons_self _ _)
        · rcases List.mem_cons.mp hq2 with he2 | hq3
          · rw [he2]
            exact le_trans (le_of_lt hcmp) (hmax w (List.mem_cons_self _ _))
          · exact hmax q (List.mem_cons_of_mem _ hq3)
      · cases l1 with
        | nil =>
          simp only [List.nil_append, List.cons.injEq] at hsplit
          obtain ⟨hwr, hws⟩ := hsplit
          refine ⟨[], c :: ws, by rw [List.nil_append, ← hwr], ?_⟩
          intro q hq
          rcases List.mem_cons.mp hq with he | hq2
          · rw [he, ← hwr]
            exact hcmp
          · exact hstrict q (hws ▸ hq2)
        | cons a t =>
          simp only [List.cons_append, List.cons.injEq] at hsplit
          obtain ⟨hwa, hws⟩ := hsplit
          exact ⟨w :: c :: t, l2,
            by rw [hws, List.cons_append, List.cons_append], hstrict⟩
    · have hred : reduceWinner w (c :: ws) = reduceWinner c ws := by
        simp [reduceWinner, List.foldl_cons, hcmp]
      rw [hred]
      obtain ⟨hmem, hmax, l1, l2, hsplit, hstrict⟩ := ih c
      generalize hgen : reduceWinner c ws = r at hmem hmax hsplit hstrict ⊢
      refine ⟨List.mem_cons_of_mem _ hmem, ?_, ?_⟩
      · intro q hq
        rcases List.mem_cons.mp hq with he | hq2
        · rw [he]
          exact le_trans (not_lt.mp hcmp) (hmax c (List.mem_cons_self _ _))
        · exact hmax q hq2
      · cases l1 with
        | nil =>
          simp only [List.nil_append, List.cons.injEq] at hsplit
          obtain ⟨hcr, hws⟩ := hsplit
          exact ⟨[w], ws,
            by rw [List.cons_append, List.nil_append, ← hcr],
            fun q hq => hstrict q (hws ▸ hq)⟩
        | cons a t =>
          simp only [List.cons_append, List.cons.injEq] at hsplit
          obtain ⟨hca, hws⟩ := hsplit
          exact ⟨w :: c :: t, l2,
            by rw [hws, List.cons_append, List.cons_append], hstrict⟩

theorem checkForWinner_reduce (g : Game) :
    g.checkForWinner =
      match g.scores.filter (fun s => decide (s.score ≥ g.targetScore)) with
      | [] => none
      | w :: ws => some (reduceWinner w ws) := rfl

/-- C3 (amended): in individual mode `checkForWinner` returns nothing when
no row reaches `targetScore`; otherwise it returns a qualifying row of
maximal score — and when several qualifying rows tie at the maximum it
returns the LAST-encountered one in row order (the `reduce` keeps `prev`
only on a strict `>`), not the first-encountered one. -/
theorem checkForWinner_characterization (g : Game) :
    ((∀ s ∈ g.scores, s.score < g.targetScore) → g.checkForWinner = none) ∧
    ((∃ s ∈ g.scores, g.targetScore ≤ s.score) →
      ∃ r, g.checkForWinner = some r) ∧
    (∀ r, g.checkForWinner = some r →
      r ∈ g.scores ∧ g.targetScore ≤ r.score ∧
      (∀ q ∈ g.scores, g.targetScore ≤ q.score → q.score ≤ r.score) ∧
      ∃ l1 l2,
        g.scores.filter (fun s => decide (s.score ≥ g.targetScore)) =
          l1 ++ r :: l2 ∧
        ∀ q ∈ l2, q.score < r.score) := by
  cases hF : g.scores.filter (fun s => decide (s.score ≥ g.targetScore)) with
  | nil =>
    have hnone : g.checkForWinner = none := by
      simp only [checkForWinner_reduce g, hF]
    refine ⟨fun _ => hnone, ?_, ?_⟩
    · rintro ⟨s, hs, hts⟩
      have hmem : s ∈ g.scores.filter
          (fun s => decide (s.score ≥ g.targetScore)) :=
        List.mem_filter.mpr ⟨hs, by simpa using hts⟩
      rw [hF] at hmem
      simp at hmem
    · intro r hr
      rw [hnone] at hr
      simp at hr
  | cons w ws =>
    have hsome : g.checkForWinner = some (reduceWinner w ws) := by
      simp only [checkForWinner_reduce g, hF]
    obtain ⟨hmem, hmax, l1, l2, hsplit, hstrict⟩ := reduceWinner_spec ws w
    refine ⟨?_, fun _ => ⟨_, hsome⟩, ?_⟩
    · intro hall
      exfalso
      have hw : w ∈ g.scores.filter
          (fun s => decide (s.score ≥ g.targetScore)) := by
        rw [hF]
        exact List.mem_cons_self w ws
      have h1 := List.mem_filter.mp hw
      have h2 : g.targetScore ≤ w.score := by simpa using h1.2
      exact absurd (hall w h1.1) (not_lt.mpr h2)
    · intro r hr
      have he : reduceWinner w ws = r := by
        rw [hsome] at hr
        exact Option.some.inj hr
      subst he
      have hrF : reduceWinner w ws ∈ g.scores.filter
          (fun s => decide (s.score ≥ g.targetScore)) := by
        rw [hF]
        exact hmem
      have h1 := List.mem_filter.mp hrF
      refine ⟨h1.1, by simpa using h1.2, ?_, l1, l2, hsplit, hstrict⟩
      intro q hq hqt
      have hqF : q ∈ g.scores.filter
          (fun s => decide (s.score ≥ g.targetScore)) :=
        List.mem_filter.mpr ⟨hq, by simpa using hqt⟩
      rw [hF] at hqF
      exact hmax q hqF

/-- C3 (counterexample): with two qualifying rows tied at the maximum,
`checkForWinner` returns the SECOND row, not the first-encountered one the
claim promises. -/
theorem checkForWinner_tie_returns_last_not_first :
    tieGame.checkForWinner = some ⟨"p2", "Bob", 1600⟩ ∧
    (⟨"p2", "Bob", 1600⟩ : ScoreEntry) ≠ ⟨"p1", "Alice", 1600⟩ :=
  ⟨rfl, by decide⟩

end Pinochle
